import Mathlib

/-!
Verification of the membership-management application's two core subsystems:
the recurring-fee (due) generation engine and the real-time chat layer
(message windowing, reactions, soft delete, unread counters, load gating).

Dates are represented by day numbers (days since the civil epoch of the
Gregorian calendar algorithm below).  The source stores dates as
`yyyy-MM-dd` strings and converts with `parseISO`/`format`, which are
mutually inverse, and compares them only by equality and by
`differenceInDays`; day numbers model this faithfully (`differenceInDays`
of two midnight dates is their day-number difference, and string equality
of formatted dates is day-number equality).
-/

namespace Spec2Proof

/-- Day number of a Gregorian civil date (standard days-from-civil
algorithm), used to give the claims' concrete calendar dates a concrete
day-number meaning. -/
def daysFromCivil (y m d : Nat) : Nat :=
  let yAdj := if m ≤ 2 then y - 1 else y
  let era := yAdj / 400
  let yoe := yAdj % 400
  let mp := if 2 < m then m - 3 else m + 9
  let doy := (153 * mp + 2) / 5 + d - 1
  let doe := yoe * 365 + yoe / 4 - yoe / 100 + doy
  era * 146097 + doe

-- ─── Fee/Due generator data model (src/unnamed/part_007) ────────────────

inductive MemberStatus
  | active
  | inactive
deriving DecidableEq, Repr

/-- A member record.  `joinDate` is `none` when the source's
`member.joinDate` field is absent/empty (JS falsy), in which case the code
falls back to the date part of `createdAt`.  Fields not used by the due
generator (email, phone, ...) are omitted. -/
structure Member where
  id : String
  name : String
  status : MemberStatus
  joinDate : Option Nat
  createdAt : Nat
  monthlyFee : Nat
deriving DecidableEq, Repr

inductive FeeStatus
  | pending
  | paid
  | overdue
deriving DecidableEq, Repr

/-- A FeeRecord (due).  The Firestore-generated document id and the
wall-clock `createdAt` timestamp are not modelled: the generator never
branches on them.  `paidDate`/`receiptNumber` are absent on generated
(pending) records and are not modelled either. -/
structure FeeRecord where
  memberId : String
  memberName : String
  periodStart : Nat
  periodEnd : Nat
  amount : Nat
  dueDate : Nat
  status : FeeStatus
deriving DecidableEq, Repr

/-- `member.joinDate ? parseISO(member.joinDate) : parseISO(member.createdAt.split('T')[0])`. -/
def memberAnchor (member : Member) : Nat :=
  member.joinDate.getD member.createdAt

/-- The due created inside the while loop of `checkAndCreateDues`
(`status: 'pending'`, `dueDate: newPeriodEnd`, `amount: member.monthlyFee`). -/
def mkDue (member : Member) (newPeriodStart newPeriodEnd : Nat) : FeeRecord :=
  { memberId := member.id
    memberName := member.name
    periodStart := newPeriodStart
    periodEnd := newPeriodEnd
    amount := member.monthlyFee
    dueDate := newPeriodEnd
    status := FeeStatus.pending }

/-- The duplicate guard:
`freshMemberDues.some(d => d.periodStart === newPeriodStart || d.periodEnd === newPeriodEnd)`. -/
def hasOverlap (freshMemberDues : List FeeRecord) (newPeriodStart newPeriodEnd : Nat) : Bool :=
  freshMemberDues.any fun d => d.periodStart == newPeriodStart || d.periodEnd == newPeriodEnd

/-- The maximum `periodEnd` of a list of dues.  The source sorts
`freshMemberDues` descending by `parseISO(periodEnd).getTime()` and takes
`sorted[0].periodEnd`, i.e. the maximum `periodEnd`. -/
def maxEnd (dues : List FeeRecord) : Nat :=
  dues.foldl (fun acc d => max acc d.periodEnd) 0

/-- The while loop of `checkAndCreateDues`, returning the list of dues it
creates for one member, in creation order:

`while (differenceInDays(today, latestPeriodEnd) >= 30) { propose
[latestPeriodEnd+1, latestPeriodEnd+30]; break on the duplicate guard;
otherwise create the due, push it onto freshMemberDues, advance
latestPeriodEnd }`.

`fuel` bounds the number of iterations; the wrapper `genLoop` passes
`today + 1`, which exceeds every possible iteration count since each
iteration advances `latestPeriodEnd` by 30 (see `genDuesLoop_fuel_irrel`). -/
def genDuesLoop (member : Member) (today : Nat) :
    Nat → List FeeRecord → Nat → List FeeRecord
  | 0, _, _ => []
  | fuel + 1, freshMemberDues, latestPeriodEnd =>
    if 30 ≤ today - latestPeriodEnd then
      if hasOverlap freshMemberDues (latestPeriodEnd + 1) (latestPeriodEnd + 30) then
        []
      else
        let newDue := mkDue member (latestPeriodEnd + 1) (latestPeriodEnd + 30)
        newDue :: genDuesLoop member today fuel (freshMemberDues ++ [newDue]) (latestPeriodEnd + 30)
    else []

/-- The while loop with always-sufficient fuel. -/
def genLoop (member : Member) (today : Nat) (freshMemberDues : List FeeRecord)
    (latestPeriodEnd : Nat) : List FeeRecord :=
  genDuesLoop member today (today + 1) freshMemberDues latestPeriodEnd

/-- The per-member body of `checkAndCreateDues` after the member's fresh
dues have been fetched and filtered: the grace-period gate
(`daysSinceJoin < 30`), the `latestPeriodEnd` seed (join date when the
member has no dues, otherwise the latest `periodEnd`), then the creation
loop.  Returns the dues created for this member. -/
def processFreshDues (today : Nat) (member : Member)
    (freshMemberDues : List FeeRecord) : List FeeRecord :=
  if today - memberAnchor member < 30 then []
  else
    let latestPeriodEnd :=
      if freshMemberDues.isEmpty then memberAnchor member else maxEnd freshMemberDues
    genLoop member today freshMemberDues latestPeriodEnd

/-- One iteration of the member loop of `checkAndCreateDues`: skip
non-active members, fetch the fresh dues collection and filter it to this
member, then run the per-member body.  Returns the dues created for this
member. -/
def processMember (today : Nat) (db : List FeeRecord) (member : Member) : List FeeRecord :=
  if member.status ≠ MemberStatus.active then []
  else processFreshDues today member (db.filter fun d => d.memberId == member.id)

/-- One reconciliation pass (`checkAndCreateDues` of `useAutoDueGeneration`):
process each member in order against the dues collection, which grows as
dues are created (the source re-fetches the collection with `getDocs` for
each member).  Returns the final dues collection. -/
def checkAndCreateDues (today : Nat) (members : List Member)
    (dues : List FeeRecord) : List FeeRecord :=
  members.foldl (fun db member => db ++ processMember today db member) dues

-- ─── Fee/Due generator with a fallible record-creation step ─────────────

/-- The creation loop where `addDoc` may reject: `fails` tells which due
creations reject.  A rejection raises out of the member loop (the source
has no try/catch inside the loop; only a `finally` that clears the
re-entrancy flag), so the loop returns the dues created so far paired with
an aborted flag.  A failing `addDoc` creates no record. -/
def genDuesLoopE (fails : FeeRecord → Bool) (member : Member) (today : Nat) :
    Nat → List FeeRecord → Nat → List FeeRecord × Bool
  | 0, _, _ => ([], false)
  | fuel + 1, freshMemberDues, latestPeriodEnd =>
    if 30 ≤ today - latestPeriodEnd then
      if hasOverlap freshMemberDues (latestPeriodEnd + 1) (latestPeriodEnd + 30) then
        ([], false)
      else
        let newDue := mkDue member (latestPeriodEnd + 1) (latestPeriodEnd + 30)
        if fails newDue then ([], true)
        else
          let rest := genDuesLoopE fails member today fuel
            (freshMemberDues ++ [newDue]) (latestPeriodEnd + 30)
          (newDue :: rest.1, rest.2)
    else ([], false)

/-- `processMember` with a fallible creation step. -/
def processMemberE (fails : FeeRecord → Bool) (today : Nat) (db : List FeeRecord)
    (member : Member) : List FeeRecord × Bool :=
  if member.status ≠ MemberStatus.active then ([], false)
  else
    let freshMemberDues := db.filter fun d => d.memberId == member.id
    if today - memberAnchor member < 30 then ([], false)
    else
      let latestPeriodEnd :=
        if freshMemberDues.isEmpty then memberAnchor member else maxEnd freshMemberDues
      genDuesLoopE fails member today (today + 1) freshMemberDues latestPeriodEnd

/-- The reconciliation pass with a fallible creation step: an exception
while processing one member propagates out of the `for` loop, so no later
member is processed in that pass.  Returns the final dues collection and
whether the pass aborted. -/
def checkAndCreateDuesE (fails : FeeRecord → Bool) (today : Nat) :
    List Member → List FeeRecord → List FeeRecord × Bool
  | [], db => (db, false)
  | member :: rest, db =>
    let result := processMemberE fails today db member
    if result.2 then (db ++ result.1, true)
    else checkAndCreateDuesE fails today rest (db ++ result.1)

-- ─── Chat data model (src/src/hooks/useChatAndNotifications.ts) ─────────

inductive MessageType
  | text
  | emoji
  | gif
  | deleted
deriving DecidableEq, Repr

structure ReplyTo where
  id : String
  senderName : String
  content : String
deriving DecidableEq, Repr

/-- A chat message.  `replyTo` and `reactions` are optional fields
(absent keys in the store); `reactions` maps an emoji string to the list
of member ids that reacted with it. -/
structure ChatMessage where
  id : String
  senderId : String
  senderName : String
  content : String
  timestamp : String
  type : MessageType
  roomId : String
  replyTo : Option ReplyTo
  reactions : Option (List (String × List String))
deriving DecidableEq, Repr

/-- `GROUP_MESSAGES_LIMIT = 1200`. -/
def GROUP_MESSAGES_LIMIT : Nat := 1200

/-- `PRIVATE_MESSAGES_LIMIT = 600`. -/
def PRIVATE_MESSAGES_LIMIT : Nat := 600

/-- The in-place replace `next[idx] = { ...prev[idx], ...nextMsg }`:
the JS spread keeps the old message's optional fields when the incoming
value lacks them, and takes every field the incoming value has. -/
def mergeMsg (old incoming : ChatMessage) : ChatMessage :=
  { incoming with
    replyTo := incoming.replyTo.orElse fun _ => old.replyTo
    reactions := incoming.reactions.orElse fun _ => old.reactions }

/-- `prev.findIndex((m) => m.id === id)`, with `none` for `-1`. -/
def findMsgIdx (msgId : String) : List ChatMessage → Option Nat
  | [] => none
  | m :: rest =>
    if m.id == msgId then some 0 else (findMsgIdx msgId rest).map (· + 1)

/-- Write `{ ...prev[idx], ...nextMsg }` at position `idx`. -/
def setMergedAt (incoming : ChatMessage) : List ChatMessage → Nat → List ChatMessage
  | [], _ => []
  | old :: rest, 0 => mergeMsg old incoming :: rest
  | old :: rest, n + 1 => old :: setMergedAt incoming rest n

/-- `upsertGroup` / `upsertPrivate`: if the message id is new, append and
(`next.length > limit`) keep only the last `limit` entries
(`next.slice(-limit)`); if the id already exists, replace in place with
the JS-spread merge. -/
def upsertMessage (limit : Nat) (msg : ChatMessage) (prev : List ChatMessage) : List ChatMessage :=
  match findMsgIdx msg.id prev with
  | none =>
    let next := prev ++ [msg]
    if limit < next.length then next.drop (next.length - limit) else next
  | some idx => setMergedAt msg prev idx

/-- The room-subscription state used by `useChat`'s group load (and,
identically, `loadPrivateMessages` for one private room): the
`initialLoadDone` gate plus the locally held message list. -/
structure ChatLoadState where
  initialLoadDone : Bool
  messages : List ChatMessage
deriving DecidableEq, Repr

/-- Events delivered to one room subscription: the baseline window `get()`
resolving with its snapshot, or a `child_added` event from the last-1 live
feed. -/
inductive ChatEvent
  | baselineResolved (snapshot : List ChatMessage)
  | childAdded (msg : ChatMessage)
deriving DecidableEq, Repr

/-- The transition function: the baseline resolution stores the snapshot
and sets `initialLoadDone`; a `child_added` event is discarded while
`initialLoadDone` is false and upserted otherwise. -/
def stepChat (limit : Nat) (s : ChatLoadState) : ChatEvent → ChatLoadState
  | ChatEvent.baselineResolved snapshot => { initialLoadDone := true, messages := snapshot }
  | ChatEvent.childAdded msg =>
    if s.initialLoadDone then { s with messages := upsertMessage limit msg s.messages } else s

-- ─── Reactions, soft delete, unread counters ────────────────────────────

/-- The `addReaction` transaction update function on
`roomPath/messageId/reactions/emoji` (`current: string[] | null`):
remove the current member if present, append them otherwise. -/
def addReactionTx (currentMemberId : String) (current : Option (List String)) : List String :=
  let list := current.getD []
  if list.contains currentMemberId then
    list.filter fun memberId => memberId != currentMemberId
  else
    list ++ [currentMemberId]

/-- `deleteMessage`'s `update` applied to a message node: `content: ''`,
`type: 'deleted'`, and `reactions: null` / `replyTo: null`, which in the
store removes those keys.  All other fields are untouched. -/
def deleteMessageUpdate (msg : ChatMessage) : ChatMessage :=
  { msg with
    content := ""
    type := MessageType.deleted
    reactions := none
    replyTo := none }

/-- The `incrementUnread` transaction update function on one
`unread/recipient/room` counter: `(current || 0) + 1` (an absent counter
reads as 0; a stored 0 is JS-falsy and also reads as 0). -/
def incrementUnreadTx (current : Option Int) : Int :=
  current.getD 0 + 1

/-- Operations applied to a single (recipient, room) unread counter:
a transactional increment (send) or a reset (`markRoomRead`'s `remove`). -/
inductive UnreadOp
  | inc
  | reset
deriving DecidableEq, Repr

def applyUnreadOp (current : Option Int) : UnreadOp → Option Int
  | UnreadOp.inc => some (incrementUnreadTx current)
  | UnreadOp.reset => none

/-- How a counter value is read: an absent node reads as 0
(`snapshot.exists()` false yields `{}` and a missing key counts 0). -/
def readUnread (current : Option Int) : Int :=
  current.getD 0

-- ─── Concrete inputs used by counterexamples and witnesses ──────────────

/-- The member of claim C1: `joinDate = 2024-01-01`, active, no dues. -/
def c1Member : Member :=
  { id := "member-1"
    name := "Member One"
    status := MemberStatus.active
    joinDate := some (daysFromCivil 2024 1 1)
    createdAt := daysFromCivil 2024 1 1
    monthlyFee := 500 }

/-- A member whose due creation is made to fail (claim C2). -/
def c2MemberFail : Member :=
  { id := "m1"
    name := "Failing Member"
    status := MemberStatus.active
    joinDate := some 0
    createdAt := 0
    monthlyFee := 500 }

/-- A second active member, due for records, processed after the failing
one (claim C2). -/
def c2MemberOk : Member :=
  { id := "m2"
    name := "Other Member"
    status := MemberStatus.active
    joinDate := some 0
    createdAt := 0
    monthlyFee := 700 }

/-- Failure oracle for claim C2: creating any due for member `m1` rejects. -/
def c2Fails (r : FeeRecord) : Bool :=
  r.memberId == "m1"

/-- A member for the grace-period witness (claim C4). -/
def c4Member : Member :=
  { id := "m4"
    name := "Grace Member"
    status := MemberStatus.active
    joinDate := some 100
    createdAt := 100
    monthlyFee := 300 }

/-- A concrete chat message used by witnesses. -/
def wMsgA : ChatMessage :=
  { id := "a"
    senderId := "s1"
    senderName := "Sender One"
    content := "hello"
    timestamp := "2024-01-01T00:00:00.000Z"
    type := MessageType.text
    roomId := "group"
    replyTo := none
    reactions := none }

/-- A second concrete chat message used by witnesses. -/
def wMsgB : ChatMessage :=
  { id := "b"
    senderId := "s2"
    senderName := "Sender Two"
    content := "hi"
    timestamp := "2024-01-01T00:00:01.000Z"
    type := MessageType.text
    roomId := "group"
    replyTo := none
    reactions := none }

-- ─── Fee generator: loop lemmas ─────────────────────────────────────────

theorem genDuesLoop_fuel_irrel (member : Member) (today : Nat) :
    ∀ fuelA fuelB (freshMemberDues : List FeeRecord) (latestPeriodEnd : Nat),
      today - latestPeriodEnd < 30 * fuelA →
      today - latestPeriodEnd < 30 * fuelB →
      genDuesLoop member today fuelA freshMemberDues latestPeriodEnd
        = genDuesLoop member today fuelB freshMemberDues latestPeriodEnd := by
  intro fuelA
  induction fuelA with
  | zero => intro fuelB F L hA hB; omega
  | succ a ih =>
    intro fuelB F L hA hB
    cases fuelB with
    | zero => omega
    | succ b =>
      simp only [genDuesLoop]
      by_cases hc : 30 ≤ today - L
      · simp only [if_pos hc]
        by_cases ho : hasOverlap F (L + 1) (L + 30) = true
        · simp [ho]
        · simp only [Bool.not_eq_true] at ho
          simp only [ho, Bool.false_eq_true, if_false]
          congr 1
          exact ih b (F ++ [mkDue member (L + 1) (L + 30)]) (L + 30) (by omega) (by omega)
      · simp [hc]

theorem genLoop_eq (member : Member) (today : Nat) (freshMemberDues : List FeeRecord)
    (latestPeriodEnd : Nat) :
    genLoop member today freshMemberDues latestPeriodEnd
      = if 30 ≤ today - latestPeriodEnd then
          if hasOverlap freshMemberDues (latestPeriodEnd + 1) (latestPeriodEnd + 30) then []
          else
            mkDue member (latestPeriodEnd + 1) (latestPeriodEnd + 30)
              :: genLoop member today
                  (freshMemberDues ++ [mkDue member (latestPeriodEnd + 1) (latestPeriodEnd + 30)])
                  (latestPeriodEnd + 30)
        else [] := by
  unfold genLoop
  simp only [genDuesLoop]
  by_cases hc : 30 ≤ today - latestPeriodEnd
  · simp only [if_pos hc]
    by_cases ho : hasOverlap freshMemberDues (latestPeriodEnd + 1) (latestPeriodEnd + 30) = true
    · simp [ho]
    · simp only [Bool.not_eq_true] at ho
      simp only [ho, Bool.false_eq_true, if_false]
      congr 1
      exact genDuesLoop_fuel_irrel member today today (today + 1) _ _ (by omega) (by omega)
  · simp [hc]

theorem genLoop_eq_nil_iff (member : Member) (today : Nat) (freshMemberDues : List FeeRecord)
    (latestPeriodEnd : Nat) :
    genLoop member today freshMemberDues latestPeriodEnd = [] ↔
      (today - latestPeriodEnd < 30 ∨
        hasOverlap freshMemberDues (latestPeriodEnd + 1) (latestPeriodEnd + 30) = true) := by
  rw [genLoop_eq]
  by_cases hc : 30 ≤ today - latestPeriodEnd
  · by_cases ho : hasOverlap freshMemberDues (latestPeriodEnd + 1) (latestPeriodEnd + 30) = true
    · simp [hc, ho]
    · simp [hc, ho]
  · simp [hc]
    omega

theorem genLoop_cons (member : Member) (today : Nat) (freshMemberDues : List FeeRecord)
    (latestPeriodEnd : Nat) (r : FeeRecord) (rest : List FeeRecord)
    (h : genLoop member today freshMemberDues latestPeriodEnd = r :: rest) :
    r = mkDue member (latestPeriodEnd + 1) (latestPeriodEnd + 30) := by
  rw [genLoop_eq] at h
  by_cases hc : 30 ≤ today - latestPeriodEnd
  · by_cases ho : hasOverlap freshMemberDues (latestPeriodEnd + 1) (latestPeriodEnd + 30) = true
    · simp [hc, ho] at h
    · simp [hc, ho] at h
      exact h.1.symm
  · simp [hc] at h

theorem genDuesLoop_memberId (member : Member) (today : Nat) :
    ∀ (fuel : Nat) (freshMemberDues : List FeeRecord) (latestPeriodEnd : Nat) (r : FeeRecord),
      r ∈ genDuesLoop member today fuel freshMemberDues latestPeriodEnd →
      r.memberId = member.id := by
  intro fuel
  induction fuel with
  | zero => intro F L r hr; simp [genDuesLoop] at hr
  | succ n ih =>
    intro F L r hr
    simp only [genDuesLoop] at hr
    by_cases hc : 30 ≤ today - L
    · simp only [if_pos hc] at hr
      by_cases ho : hasOverlap F (L + 1) (L + 30) = true
      · simp [ho] at hr
      · simp only [Bool.not_eq_true] at ho
        simp only [ho, Bool.false_eq_true, if_false, List.mem_cons] at hr
        rcases hr with h | h
        · subst h; rfl
        · exact ih _ _ _ h
    · simp [hc] at hr

theorem genLoop_memberId (member : Member) (today : Nat) (freshMemberDues : List FeeRecord)
    (latestPeriodEnd : Nat) (r : FeeRecord)
    (hr : r ∈ genLoop member today freshMemberDues latestPeriodEnd) :
    r.memberId = member.id :=
  genDuesLoop_memberId member today _ _ _ _ hr

theorem foldl_max_le_init (dues : List FeeRecord) :
    ∀ acc : Nat, acc ≤ dues.foldl (fun a d => max a d.periodEnd) acc := by
  induction dues with
  | nil => intro acc; exact le_refl _
  | cons d rest ih =>
    intro acc
    exact le_trans (le_max_left acc d.periodEnd) (ih _)

theorem periodEnd_le_foldl_max (r : FeeRecord) :
    ∀ (dues : List FeeRecord) (acc : Nat), r ∈ dues →
      r.periodEnd ≤ dues.foldl (fun a d => max a d.periodEnd) acc := by
  intro dues
  induction dues with
  | nil => intro acc h; simp at h
  | cons d rest ih =>
    intro acc hr
    rcases List.mem_cons.mp hr with h | h
    · subst h
      exact le_trans (le_max_right acc r.periodEnd) (foldl_max_le_init rest _)
    · exact ih _ h

theorem periodEnd_le_maxEnd (r : FeeRecord) (dues : List FeeRecord) (hr : r ∈ dues) :
    r.periodEnd ≤ maxEnd dues :=
  periodEnd_le_foldl_max r dues 0 hr

theorem maxEnd_append_singleton (dues : List FeeRecord) (r : FeeRecord) :
    maxEnd (dues ++ [r]) = max (maxEnd dues) r.periodEnd := by
  simp [maxEnd, List.foldl_append]

theorem genLoop_post (member : Member) (today : Nat) :
    ∀ (n latestPeriodEnd : Nat) (freshMemberDues : List FeeRecord),
      today - latestPeriodEnd ≤ n →
      maxEnd freshMemberDues ≤ latestPeriodEnd →
      genLoop member today
        (freshMemberDues ++ genLoop member today freshMemberDues latestPeriodEnd)
        (max latestPeriodEnd
          (maxEnd (freshMemberDues ++ genLoop member today freshMemberDues latestPeriodEnd)))
        = [] := by
  intro n
  induction n using Nat.strong_induction_on with
  | _ n ih =>
    intro L F hn hmax
    by_cases hc : 30 ≤ today - L
    · by_cases ho : hasOverlap F (L + 1) (L + 30) = true
      · have h0 : genLoop member today F L = [] :=
          (genLoop_eq_nil_iff member today F L).mpr (Or.inr ho)
        rw [h0, List.append_nil, max_eq_left hmax]
        exact h0
      · simp only [Bool.not_eq_true] at ho
        have hrec : genLoop member today F L
            = mkDue member (L + 1) (L + 30)
              :: genLoop member today (F ++ [mkDue member (L + 1) (L + 30)]) (L + 30) := by
          rw [genLoop_eq]
          simp [hc, ho]
        have hX : F ++ genLoop member today F L
            = (F ++ [mkDue member (L + 1) (L + 30)])
              ++ genLoop member today (F ++ [mkDue member (L + 1) (L + 30)]) (L + 30) := by
          rw [hrec, List.append_assoc, List.singleton_append]
        have hmax2 : maxEnd (F ++ [mkDue member (L + 1) (L + 30)]) ≤ L + 30 := by
          rw [maxEnd_append_singleton]
          exact max_le (by omega) (le_refl _)
        have hrmem : mkDue member (L + 1) (L + 30)
            ∈ (F ++ [mkDue member (L + 1) (L + 30)])
              ++ genLoop member today (F ++ [mkDue member (L + 1) (L + 30)]) (L + 30) := by
          simp
        have hle : L + 30 ≤ maxEnd ((F ++ [mkDue member (L + 1) (L + 30)])
            ++ genLoop member today (F ++ [mkDue member (L + 1) (L + 30)]) (L + 30)) :=
          periodEnd_le_maxEnd _ _ hrmem
        have hIH := ih (today - (L + 30)) (by omega) (L + 30)
          (F ++ [mkDue member (L + 1) (L + 30)]) (le_refl _) hmax2
        rw [hX, max_eq_right (le_trans (by omega) hle)]
        rw [max_eq_right hle] at hIH
        exact hIH
    · have h0 : genLoop member today F L = [] :=
        (genLoop_eq_nil_iff member today F L).mpr (Or.inl (by omega))
      rw [h0, List.append_nil, max_eq_left hmax]
      exact h0

-- ─── Fee generator: per-member settledness ──────────────────────────────

theorem processMember_of_inactive (today : Nat) (db : List FeeRecord) (member : Member)
    (h : member.status ≠ MemberStatus.active) :
    processMember today db member = [] := by
  simp [processMember, h]

theorem processMember_of_grace (today : Nat) (db : List FeeRecord) (member : Member)
    (h : today - memberAnchor member < 30) :
    processMember today db member = [] := by
  simp only [processMember, processFreshDues]
  split_ifs <;> rfl

theorem processMember_filter_congr (today : Nat) (db1 db2 : List FeeRecord) (member : Member)
    (h : db1.filter (fun d => d.memberId == member.id)
        = db2.filter (fun d => d.memberId == member.id)) :
    processMember today db1 member = processMember today db2 member := by
  unfold processMember
  rw [h]

theorem processMember_memberId (today : Nat) (db : List FeeRecord) (member : Member)
    (r : FeeRecord) (hr : r ∈ processMember today db member) :
    r.memberId = member.id := by
  simp only [processMember, processFreshDues] at hr
  split_ifs at hr
  · simp at hr
  · simp at hr
  · exact genLoop_memberId member today _ _ r hr
  · exact genLoop_memberId member today _ _ r hr

theorem filter_processMember_self (today : Nat) (db : List FeeRecord) (member : Member) :
    (processMember today db member).filter (fun d => d.memberId == member.id)
      = processMember today db member := by
  rw [List.filter_eq_self]
  intro r hr
  simp [processMember_memberId today db member r hr]

theorem filter_processMember_other (today : Nat) (db : List FeeRecord) (member other : Member)
    (hid : other.id ≠ member.id) :
    (processMember today db other).filter (fun d => d.memberId == member.id) = [] := by
  rw [List.filter_eq_nil_iff]
  intro r hr
  have hrid := processMember_memberId today db other r hr
  simp [hrid, hid]

theorem settled_loop_analysis (today : Nat) (db : List FeeRecord) (member : Member)
    (hact : member.status = MemberStatus.active)
    (hgate : ¬ today - memberAnchor member < 30)
    (hset : processMember today db member = []) :
    db.filter (fun d => d.memberId == member.id) ≠ [] ∧
      genLoop member today (db.filter (fun d => d.memberId == member.id))
        (maxEnd (db.filter (fun d => d.memberId == member.id))) = [] := by
  have hns : ¬ member.status ≠ MemberStatus.active := by simp [hact]
  unfold processMember at hset
  rw [if_neg hns] at hset
  simp only [processFreshDues] at hset
  rw [if_neg hgate] at hset
  by_cases hF : db.filter (fun d => d.memberId == member.id) = []
  · exfalso
    rw [hF] at hset
    simp only [List.isEmpty_nil, if_true] at hset
    rw [genLoop_eq_nil_iff] at hset
    rcases hset with h | h
    · omega
    · simp [hasOverlap] at h
  · refine ⟨hF, ?_⟩
    have hne : ¬ ((db.filter (fun d => d.memberId == member.id)).isEmpty = true) := by
      intro hc
      exact hF (List.isEmpty_iff.mp hc)
    rw [if_neg hne] at hset
    exact hset

theorem processFreshDues_self_settled (today : Nat) (member : Member) (F : List FeeRecord)
    (hgate : ¬ today - memberAnchor member < 30) :
    processFreshDues today member (F ++ processFreshDues today member F) = [] := by
  have hL1 : maxEnd F ≤ (if F.isEmpty then memberAnchor member else maxEnd F) := by
    by_cases hF : F.isEmpty = true
    · have hnil : F = [] := List.isEmpty_iff.mp hF
      subst hnil
      simp [maxEnd]
    · simp [hF]
  simp only [processFreshDues, if_neg hgate]
  set L1v := (if F.isEmpty then memberAnchor member else maxEnd F) with hL1v
  set out := genLoop member today F L1v with hout
  by_cases hFO : F ++ out = []
  · exfalso
    have hFnil : F = [] := (List.append_eq_nil.mp hFO).1
    have honil : out = [] := (List.append_eq_nil.mp hFO).2
    rw [hout, hFnil] at honil
    rw [hL1v, hFnil] at honil
    simp only [List.isEmpty_nil, if_true] at honil
    rw [genLoop_eq_nil_iff] at honil
    rcases honil with h | h
    · omega
    · simp [hasOverlap] at h
  · have hne : ¬ ((F ++ out).isEmpty = true) := by
      intro hc
      exact hFO (List.isEmpty_iff.mp hc)
    rw [if_neg hne]
    have hle : L1v ≤ maxEnd (F ++ out) := by
      by_cases houtnil : out = []
      · have hFne : F ≠ [] := by
          intro hc
          exact hFO (by rw [hc, houtnil, List.append_nil])
        have hFe : ¬ (F.isEmpty = true) := by
          intro hc
          exact hFne (List.isEmpty_iff.mp hc)
        rw [hL1v, if_neg hFe, houtnil, List.append_nil]
      · obtain ⟨r, rest, hre⟩ := List.exists_cons_of_ne_nil houtnil
        have hglc : genLoop member today F L1v = r :: rest := by rw [← hout]; exact hre
        have hr := genLoop_cons member today F L1v r rest hglc
        have hrend : r.periodEnd = L1v + 30 := by rw [hr]; rfl
        have hrmem : r ∈ F ++ out := by
          rw [hre]
          exact List.mem_append_right F (List.mem_cons_self r rest)
        have hm := periodEnd_le_maxEnd r (F ++ out) hrmem
        omega
    rw [show maxEnd (F ++ out) = max L1v (maxEnd (F ++ out)) from (max_eq_right hle).symm]
    exact genLoop_post member today (today - L1v) L1v F (le_refl _) hL1

theorem settled_self (today : Nat) (db : List FeeRecord) (member : Member) :
    processMember today (db ++ processMember today db member) member = [] := by
  by_cases hact : member.status = MemberStatus.active
  · by_cases hgate : today - memberAnchor member < 30
    · exact processMember_of_grace _ _ _ hgate
    · have hns : ¬ member.status ≠ MemberStatus.active := by simp [hact]
      have hpm : processMember today db member
          = processFreshDues today member (db.filter fun d => d.memberId == member.id) := by
        unfold processMember
        rw [if_neg hns]
      calc processMember today (db ++ processMember today db member) member
          = processFreshDues today member
              ((db ++ processMember today db member).filter fun d => d.memberId == member.id) := by
            unfold processMember
            rw [if_neg hns]
        _ = processFreshDues today member
              ((db.filter fun d => d.memberId == member.id) ++ processMember today db member) := by
            rw [List.filter_append, filter_processMember_self]
        _ = processFreshDues today member
              ((db.filter fun d => d.memberId == member.id)
                ++ processFreshDues today member (db.filter fun d => d.memberId == member.id)) := by
            rw [hpm]
        _ = [] := processFreshDues_self_settled today member _ hgate
  · exact processMember_of_inactive _ _ _ hact

theorem settled_step (today : Nat) (db : List FeeRecord) (member other : Member)
    (h : processMember today db member = []) :
    processMember today (db ++ processMember today db other) member = [] := by
  by_cases hact : member.status = MemberStatus.active
  · by_cases hgate : today - memberAnchor member < 30
    · exact processMember_of_grace _ _ _ hgate
    · by_cases hid : other.id = member.id
      · have hmain := settled_loop_analysis today db member hact hgate h
        have hother : processMember today db other = [] := by
          by_cases hact' : other.status = MemberStatus.active
          · by_cases hgate' : today - memberAnchor other < 30
            · exact processMember_of_grace _ _ _ hgate'
            · have hns' : ¬ other.status ≠ MemberStatus.active := by simp [hact']
              unfold processMember
              rw [if_neg hns']
              simp only [processFreshDues]
              rw [if_neg hgate']
              have hFeq : (db.filter fun d => d.memberId == other.id)
                  = (db.filter fun d => d.memberId == member.id) := by rw [hid]
              rw [hFeq]
              have hne : ¬ ((db.filter fun d => d.memberId == member.id).isEmpty = true) := by
                intro hc
                exact hmain.1 (List.isEmpty_iff.mp hc)
              rw [if_neg hne]
              rw [genLoop_eq_nil_iff]
              exact (genLoop_eq_nil_iff member today _ _).mp hmain.2
          · exact processMember_of_inactive _ _ _ hact'
        rw [hother, List.append_nil]
        exact h
      · have hfeq : (db ++ processMember today db other).filter
              (fun d => d.memberId == member.id)
            = db.filter (fun d => d.memberId == member.id) := by
          rw [List.filter_append, filter_processMember_other today db member other hid,
            List.append_nil]
        exact (processMember_filter_congr today _ db member hfeq).trans h
  · exact processMember_of_inactive _ _ _ hact

-- ─── Fee generator: reconciliation pass lemmas ──────────────────────────

theorem checkAndCreateDues_cons (today : Nat) (m : Member) (ms : List Member)
    (db : List FeeRecord) :
    checkAndCreateDues today (m :: ms) db
      = checkAndCreateDues today ms (db ++ processMember today db m) := rfl

theorem settled_pass (today : Nat) :
    ∀ (ms : List Member) (db : List FeeRecord) (member : Member),
      processMember today db member = [] →
      processMember today (checkAndCreateDues today ms db) member = [] := by
  intro ms
  induction ms with
  | nil => intro db member h; exact h
  | cons m rest ih =>
    intro db member h
    rw [checkAndCreateDues_cons]
    exact ih _ member (settled_step today db member m h)

theorem all_settled (today : Nat) :
    ∀ (ms : List Member) (db : List FeeRecord) (member : Member), member ∈ ms →
      processMember today (checkAndCreateDues today ms db) member = [] := by
  intro ms
  induction ms with
  | nil => intro db member h; simp at h
  | cons m rest ih =>
    intro db member hmem
    rw [checkAndCreateDues_cons]
    rcases List.mem_cons.mp hmem with h | h
    · subst h
      exact settled_pass today rest _ member (settled_self today db member)
    · exact ih _ member h

theorem pass_of_settled (today : Nat) :
    ∀ (ms : List Member) (db : List FeeRecord),
      (∀ member ∈ ms, processMember today db member = []) →
      checkAndCreateDues today ms db = db := by
  intro ms
  induction ms with
  | nil => intro db _; rfl
  | cons m rest ih =>
    intro db hall
    rw [checkAndCreateDues_cons, hall m (List.mem_cons_self m rest), List.append_nil]
    exact ih db fun x hx => hall x (List.mem_cons_of_mem m hx)

-- ─── Fallible pass: relation to the pure pass ───────────────────────────

theorem genDuesLoopE_no_failure (member : Member) (today : Nat) :
    ∀ (fuel : Nat) (F : List FeeRecord) (L : Nat),
      genDuesLoopE (fun _ => false) member today fuel F L
        = (genDuesLoop member today fuel F L, false) := by
  intro fuel
  induction fuel with
  | zero => intro F L; rfl
  | succ n ih =>
    intro F L
    simp only [genDuesLoopE, genDuesLoop]
    by_cases hc : 30 ≤ today - L
    · simp only [if_pos hc]
      by_cases ho : hasOverlap F (L + 1) (L + 30) = true
      · simp [ho]
      · simp only [Bool.not_eq_true] at ho
        simp [ho, ih]
    · simp [hc]

theorem processMemberE_no_failure (today : Nat) (db : List FeeRecord) (member : Member) :
    processMemberE (fun _ => false) today db member
      = (processMember today db member, false) := by
  simp only [processMemberE, processMember, processFreshDues, genLoop]
  split_ifs <;> simp [genDuesLoopE_no_failure]

theorem checkAndCreateDuesE_no_failure (today : Nat) :
    ∀ (ms : List Member) (db : List FeeRecord),
      checkAndCreateDuesE (fun _ => false) today ms db
        = (checkAndCreateDues today ms db, false) := by
  intro ms
  induction ms with
  | nil => intro db; rfl
  | cons m rest ih =>
    intro db
    simp only [checkAndCreateDuesE, processMemberE_no_failure, checkAndCreateDues_cons]
    simp [ih]

-- ─── Claims C1-C4 ───────────────────────────────────────────────────────

/-- Claim C1 counterexample: for a member with joinDate 2024-01-01 and no
existing FeeRecords, reconciling with today = 2024-03-15 does create
exactly 2 FeeRecords, but the first record's periodStart is the join date
+ 1 day (2024-01-02), not the join date, and its periodEnd is the join
date + 30 days, not + 29 — so the claimed conjunction is false at this
input. -/
theorem C1_counterexample :
    ¬ ((checkAndCreateDues (daysFromCivil 2024 3 15) [c1Member] []).length = 2
      ∧ ((checkAndCreateDues (daysFromCivil 2024 3 15) [c1Member] []).map
          FeeRecord.periodStart)[0]? = some (daysFromCivil 2024 1 1)
      ∧ ((checkAndCreateDues (daysFromCivil 2024 3 15) [c1Member] []).map
          FeeRecord.periodEnd)[0]? = some (daysFromCivil 2024 1 1 + 29)) := by
  decide

/-- Claim C1 amended: a member with joinDate 2024-01-01 and no existing
FeeRecords, reconciled with today = 2024-03-15, gets exactly 2 FeeRecords;
the first period is [joinDate + 1 day, joinDate + 30 days] and the second
is [first periodEnd + 1 day, second periodStart + 29 days]. -/
theorem C1_amended_two_periods :
    (checkAndCreateDues (daysFromCivil 2024 3 15) [c1Member] []).map
        (fun r => (r.periodStart, r.periodEnd))
      = [(daysFromCivil 2024 1 1 + 1, daysFromCivil 2024 1 1 + 30),
         (daysFromCivil 2024 1 1 + 31, daysFromCivil 2024 1 1 + 60)] := by
  decide

/-- Claim C2 counterexample: two active members, both 74 days past their
join date with no dues; creating the first member's due fails.  The pass
aborts, the resulting dues collection has no record for the second member,
and a reconciliation step for the second member on that collection would
still create records — the second member's chain was not brought up to
date, contradicting the claim. -/
theorem C2_counterexample :
    (checkAndCreateDuesE c2Fails 74 [c2MemberFail, c2MemberOk] []).2 = true
      ∧ ((checkAndCreateDuesE c2Fails 74 [c2MemberFail, c2MemberOk] []).1.filter
          (fun d => d.memberId == c2MemberOk.id)) = []
      ∧ processMember 74 (checkAndCreateDuesE c2Fails 74 [c2MemberFail, c2MemberOk] []).1
          c2MemberOk ≠ [] := by
  decide

/-- Claim C2 amended: a failure while creating one member's due record
aborts the reconciliation pass — dues created before the failure are kept,
and no member after the failing one is processed in that pass (they are
only caught up by a later pass). -/
theorem C2_amended_failure_aborts_pass (fails : FeeRecord → Bool) (today : Nat)
    (db : List FeeRecord) (member : Member) (ms : List Member)
    (h : (processMemberE fails today db member).2 = true) :
    checkAndCreateDuesE fails today (member :: ms) db
      = (db ++ (processMemberE fails today db member).1, true) := by
  simp only [checkAndCreateDuesE, h, if_true]

/-- Witness for the amended C2 at a concrete failing pass. -/
theorem C2_amended_witness :
    (processMemberE c2Fails 74 [] c2MemberFail).2 = true
      ∧ checkAndCreateDuesE c2Fails 74 [c2MemberFail, c2MemberOk] []
        = ([] ++ (processMemberE c2Fails 74 [] c2MemberFail).1, true) :=
  ⟨by decide, C2_amended_failure_aborts_pass c2Fails 74 [] c2MemberFail [c2MemberOk] (by decide)⟩

/-- Claim C3: reconciliation is idempotent — for every set of members and
every set of existing FeeRecords, running the due-generation pass a second
time with the same today-date and no intervening changes creates zero new
FeeRecords (the dues collection is unchanged). -/
theorem C3_idempotent_reconciliation (today : Nat) (members : List Member)
    (dues : List FeeRecord) :
    checkAndCreateDues today members (checkAndCreateDues today members dues)
      = checkAndCreateDues today members dues :=
  pass_of_settled today members _ fun m hm => all_settled today members dues m hm

/-- Claim C4: grace period — an active member with no existing FeeRecords
gets zero records when exactly 29 days have elapsed since their join date,
and exactly one record when exactly 30 days have elapsed. -/
theorem C4_grace_period (member : Member) (db : List FeeRecord)
    (hact : member.status = MemberStatus.active)
    (hnodues : db.filter (fun d => d.memberId == member.id) = []) :
    processMember (memberAnchor member + 29) db member = []
      ∧ (processMember (memberAnchor member + 30) db member).length = 1 := by
  have hns : ¬ member.status ≠ MemberStatus.active := by simp [hact]
  constructor
  · apply processMember_of_grace
    omega
  · have hgate : ¬ (memberAnchor member + 30 - memberAnchor member < 30) := by omega
    simp only [processMember, processFreshDues, if_neg hns, hnodues, if_neg hgate,
      List.isEmpty_nil, if_true]
    rw [genLoop_eq, if_pos (by omega), if_neg (by simp [hasOverlap]),
      genLoop_eq, if_neg (by omega)]
    rfl

/-- Witness for C4 at a concrete member with join day 100 and empty dues. -/
theorem C4_grace_period_witness :
    c4Member.status = MemberStatus.active
      ∧ ([] : List FeeRecord).filter (fun d => d.memberId == c4Member.id) = []
      ∧ processMember (memberAnchor c4Member + 29) [] c4Member = []
      ∧ (processMember (memberAnchor c4Member + 30) [] c4Member).length = 1 := by
  refine ⟨by decide, by decide, ?_, ?_⟩
  · exact (C4_grace_period c4Member [] (by decide) (by decide)).1
  · exact (C4_grace_period c4Member [] (by decide) (by decide)).2

-- ─── Reaction toggle lemmas ─────────────────────────────────────────────

theorem mem_addReactionTx (currentMemberId x : String) (current : Option (List String)) :
    x ∈ addReactionTx currentMemberId current
      ↔ ((x ∈ current.getD [] ∧ x ≠ currentMemberId)
          ∨ (x = currentMemberId ∧ currentMemberId ∉ current.getD [])) := by
  simp only [addReactionTx]
  by_cases hmem : (current.getD []).contains currentMemberId = true
  · have hm := List.elem_iff.mp hmem
    rw [if_pos hmem]
    simp only [List.mem_filter, bne_iff_ne, ne_eq]
    constructor
    · rintro ⟨h1, h2⟩
      exact Or.inl ⟨h1, h2⟩
    · rintro (⟨h1, h2⟩ | ⟨h1, h2⟩)
      · exact ⟨h1, h2⟩
      · exact absurd hm h2
  · have hm : currentMemberId ∉ current.getD [] := fun hc => hmem (List.elem_iff.mpr hc)
    rw [if_neg hmem]
    simp only [List.mem_append, List.mem_singleton]
    constructor
    · rintro (h1 | h1)
      · by_cases hx : x = currentMemberId
        · exact absurd (hx ▸ h1) hm
        · exact Or.inl ⟨h1, hx⟩
      · exact Or.inr ⟨h1, hm⟩
    · rintro (⟨h1, _⟩ | ⟨h1, _⟩)
      · exact Or.inl h1
      · exact Or.inr h1

-- ─── Message upsert lemmas ──────────────────────────────────────────────

theorem setMergedAt_length (incoming : ChatMessage) :
    ∀ (l : List ChatMessage) (n : Nat), (setMergedAt incoming l n).length = l.length := by
  intro l
  induction l with
  | nil => intro n; rfl
  | cons old rest ih =>
    intro n
    cases n with
    | zero => rfl
    | succ k => simp [setMergedAt, ih]

theorem findMsgIdx_eq_none (msgId : String) :
    ∀ (l : List ChatMessage), (∀ p ∈ l, p.id ≠ msgId) → findMsgIdx msgId l = none := by
  intro l
  induction l with
  | nil => intro _; rfl
  | cons m rest ih =>
    intro h
    have hm : ¬ ((m.id == msgId) = true) := by
      simp [h m (List.mem_cons_self m rest)]
    rw [findMsgIdx, if_neg hm, ih fun p hp => h p (List.mem_cons_of_mem m hp)]
    rfl

theorem upsertMessage_length_le (limit : Nat) (msg : ChatMessage) (prev : List ChatMessage)
    (h : prev.length ≤ limit) :
    (upsertMessage limit msg prev).length ≤ limit := by
  unfold upsertMessage
  cases hidx : findMsgIdx msg.id prev with
  | none =>
    show (if limit < (prev ++ [msg]).length
        then (prev ++ [msg]).drop ((prev ++ [msg]).length - limit)
        else prev ++ [msg]).length ≤ limit
    by_cases hover : limit < (prev ++ [msg]).length
    · rw [if_pos hover]
      simp only [List.length_drop]
      omega
    · rw [if_neg hover]
      omega
  | some idx =>
    show (setMergedAt msg prev idx).length ≤ limit
    rw [setMergedAt_length]
    exact h

theorem foldl_upsert_length_le (limit : Nat) :
    ∀ (msgs prev : List ChatMessage), prev.length ≤ limit →
      (msgs.foldl (fun acc m => upsertMessage limit m acc) prev).length ≤ limit := by
  intro msgs
  induction msgs with
  | nil => intro prev h; exact h
  | cons m rest ih =>
    intro prev h
    exact ih _ (upsertMessage_length_le limit m prev h)

theorem upsertMessage_fresh_suffix (limit : Nat) (msg : ChatMessage) (prev : List ChatMessage)
    (h : ∀ p ∈ prev, p.id ≠ msg.id) :
    upsertMessage limit msg prev <:+ prev ++ [msg] := by
  unfold upsertMessage
  rw [findMsgIdx_eq_none msg.id prev h]
  show (if limit < (prev ++ [msg]).length
      then (prev ++ [msg]).drop ((prev ++ [msg]).length - limit)
      else prev ++ [msg]) <:+ prev ++ [msg]
  by_cases hover : limit < (prev ++ [msg]).length
  · rw [if_pos hover]
    exact List.drop_suffix _ _
  · rw [if_neg hover]

theorem foldl_upsert_suffix (limit : Nat) :
    ∀ (msgs base cur : List ChatMessage), cur <:+ base →
      ((base ++ msgs).map ChatMessage.id).Nodup →
      msgs.foldl (fun acc m => upsertMessage limit m acc) cur <:+ base ++ msgs := by
  intro msgs
  induction msgs with
  | nil =>
    intro base cur hsuf _
    simpa using hsuf
  | cons m rest ih =>
    intro base cur hsuf hnd
    have hassoc : base ++ m :: rest = (base ++ [m]) ++ rest := by
      rw [List.append_assoc, List.singleton_append]
    have hnd' : (((base ++ [m]) ++ rest).map ChatMessage.id).Nodup := by
      rw [← hassoc]
      exact hnd
    have hdisj : ∀ a ∈ base.map ChatMessage.id, a ∉ (m :: rest).map ChatMessage.id := by
      have hmap := hnd
      rw [List.map_append] at hmap
      exact (List.nodup_append.mp hmap).2.2
    have hfresh : ∀ p ∈ cur, p.id ≠ m.id := by
      intro p hp he
      have hpbase : p ∈ base := hsuf.sublist.subset hp
      have hpid : p.id ∈ base.map ChatMessage.id := List.mem_map_of_mem _ hpbase
      exact hdisj p.id hpid (by simp [he])
    have hstep : upsertMessage limit m cur <:+ base ++ [m] := by
      obtain ⟨t, ht⟩ := hsuf
      exact (upsertMessage_fresh_suffix limit m cur hfresh).trans
        ⟨t, by rw [← List.append_assoc, ht]⟩
    have hrest := ih (base ++ [m]) (upsertMessage limit m cur) hstep hnd'
    rw [hassoc]
    simpa using hrest

-- ─── Unread counter lemmas ──────────────────────────────────────────────

theorem unread_foldl_nonneg :
    ∀ (ops : List UnreadOp) (c : Option Int), 0 ≤ readUnread c →
      0 ≤ readUnread (ops.foldl applyUnreadOp c) := by
  intro ops
  induction ops with
  | nil => intro c h; exact h
  | cons op rest ih =>
    intro c h
    simp only [readUnread] at h
    cases op with
    | inc =>
      apply ih
      simp only [List.foldl_cons, applyUnreadOp, readUnread, incrementUnreadTx,
        Option.getD_some]
      omega
    | reset =>
      apply ih
      simp [applyUnreadOp, readUnread]

-- ─── Gate lemma for the initial load ────────────────────────────────────

theorem stepChat_gated (limit : Nat) :
    ∀ (adds : List ChatMessage) (s : ChatLoadState), s.initialLoadDone = false →
      (adds.map ChatEvent.childAdded).foldl (stepChat limit) s = s := by
  intro adds
  induction adds with
  | nil => intro s _; rfl
  | cons m rest ih =>
    intro s h
    simp only [List.map_cons, List.foldl_cons]
    rw [show stepChat limit s (ChatEvent.childAdded m) = s by simp [stepChat, h]]
    exact ih s h

-- ─── Claims C5-C10 ──────────────────────────────────────────────────────

/-- Claim C5: the reaction toggle is an involution on membership — for
every member, every reaction set (one message's `reactions[emoji]` node),
and every id `x`, applying the `addReaction` transaction update twice by
the same member leaves `x`'s membership in the set as it originally was;
in particular a member not initially present is absent again. -/
theorem C5_reaction_toggle_involution (currentMemberId : String)
    (current : Option (List String)) (x : String) :
    (x ∈ addReactionTx currentMemberId (some (addReactionTx currentMemberId current))
      ↔ x ∈ current.getD []) := by
  simp only [mem_addReactionTx, Option.getD_some]
  by_cases hx : x = currentMemberId
  · subst hx
    tauto
  · tauto

/-- Claim C6: after `deleteMessage`'s update, the message's content is
empty, its type is deleted, reactions and replyTo are absent, and id,
timestamp, senderId and senderName are unchanged. -/
theorem C6_soft_delete_erasure (msg : ChatMessage) :
    (deleteMessageUpdate msg).content = ""
      ∧ (deleteMessageUpdate msg).type = MessageType.deleted
      ∧ (deleteMessageUpdate msg).reactions = none
      ∧ (deleteMessageUpdate msg).replyTo = none
      ∧ (deleteMessageUpdate msg).id = msg.id
      ∧ (deleteMessageUpdate msg).timestamp = msg.timestamp
      ∧ (deleteMessageUpdate msg).senderId = msg.senderId
      ∧ (deleteMessageUpdate msg).senderName = msg.senderName := by
  simp [deleteMessageUpdate]

/-- Claim C7: the local message list never exceeds the room's network
window size (group 1200, private 600): starting from a baseline of at most
W messages, any sequence of child-added upserts keeps the list length at
most W, and (for fresh message ids) the result is a suffix of the full
append — only the oldest entries are dropped. -/
theorem C7_window_bound (W : Nat)
    (_hW : W = GROUP_MESSAGES_LIMIT ∨ W = PRIVATE_MESSAGES_LIMIT)
    (prev msgs : List ChatMessage) (hlen : prev.length ≤ W) :
    (msgs.foldl (fun acc m => upsertMessage W m acc) prev).length ≤ W
      ∧ (((prev ++ msgs).map ChatMessage.id).Nodup →
          msgs.foldl (fun acc m => upsertMessage W m acc) prev <:+ prev ++ msgs) := by
  refine ⟨foldl_upsert_length_le W msgs prev hlen, fun hnd => ?_⟩
  exact foldl_upsert_suffix W msgs prev prev (List.suffix_refl prev) hnd

/-- Witness for C7: two fresh messages upserted into an empty group list. -/
theorem C7_window_bound_witness :
    ([wMsgA, wMsgB].foldl
        (fun acc m => upsertMessage GROUP_MESSAGES_LIMIT m acc) []).length
        ≤ GROUP_MESSAGES_LIMIT
      ∧ [wMsgA, wMsgB].foldl (fun acc m => upsertMessage GROUP_MESSAGES_LIMIT m acc) []
          <:+ [] ++ [wMsgA, wMsgB] :=
  ⟨(C7_window_bound GROUP_MESSAGES_LIMIT (Or.inl rfl) [] [wMsgA, wMsgB] (by decide)).1,
   (C7_window_bound GROUP_MESSAGES_LIMIT (Or.inl rfl) [] [wMsgA, wMsgB] (by decide)).2
     (by decide)⟩

/-- Claim C8: for any sequence of transactional increments and resets
applied to one (recipient, room) unread counter starting absent, the value
read is always ≥ 0, and immediately after a reset with no concurrent
increment the counter reads exactly 0. -/
theorem C8_unread_counter (ops : List UnreadOp) :
    0 ≤ readUnread (ops.foldl applyUnreadOp none)
      ∧ readUnread ((ops ++ [UnreadOp.reset]).foldl applyUnreadOp none) = 0 := by
  constructor
  · exact unread_foldl_nonneg ops none (by simp [readUnread])
  · rw [List.foldl_append]
    rfl

/-- Claim C9: while the baseline window read has not resolved
(`initialLoadDone` is false), every child-added event from the last-1 live
feed leaves the local state unchanged; after the baseline resolves,
child-added events are upserted normally. -/
theorem C9_initial_load_gate (limit : Nat) (s : ChatLoadState)
    (h : s.initialLoadDone = false) (adds : List ChatMessage) :
    (adds.map ChatEvent.childAdded).foldl (stepChat limit) s = s
      ∧ ∀ (snapshot : List ChatMessage) (msg : ChatMessage),
          (stepChat limit (stepChat limit s (ChatEvent.baselineResolved snapshot))
            (ChatEvent.childAdded msg)).messages = upsertMessage limit msg snapshot := by
  refine ⟨stepChat_gated limit adds s h, fun snapshot msg => ?_⟩
  simp [stepChat]

/-- Witness for C9: a pre-baseline child-added event is discarded; a
post-baseline one is upserted. -/
theorem C9_initial_load_gate_witness :
    ([wMsgA].map ChatEvent.childAdded).foldl (stepChat GROUP_MESSAGES_LIMIT)
        { initialLoadDone := false, messages := [] }
      = ({ initialLoadDone := false, messages := [] } : ChatLoadState)
      ∧ (stepChat GROUP_MESSAGES_LIMIT
          (stepChat GROUP_MESSAGES_LIMIT { initialLoadDone := false, messages := [] }
            (ChatEvent.baselineResolved [wMsgA]))
          (ChatEvent.childAdded wMsgB)).messages
        = upsertMessage GROUP_MESSAGES_LIMIT wMsgB [wMsgA] :=
  ⟨(C9_initial_load_gate GROUP_MESSAGES_LIMIT { initialLoadDone := false, messages := [] }
      rfl [wMsgA]).1,
   (C9_initial_load_gate GROUP_MESSAGES_LIMIT { initialLoadDone := false, messages := [] }
      rfl [wMsgA]).2 [wMsgA] wMsgB⟩

/-- Claim C10: a reaction toggle by member `x` never changes any other
member `y`'s reaction state — `y`'s membership is preserved — and the
relative order of the entries other than `x` is preserved. -/
theorem C10_reaction_toggle_frame (x y : String) (current : Option (List String))
    (hxy : y ≠ x) :
    (y ∈ addReactionTx x current ↔ y ∈ current.getD [])
      ∧ (addReactionTx x current).filter (fun memberId => memberId != x)
        = (current.getD []).filter (fun memberId => memberId != x) := by
  constructor
  · rw [mem_addReactionTx]
    constructor
    · rintro (⟨h1, _⟩ | ⟨h1, _⟩)
      · exact h1
      · exact absurd h1 hxy
    · intro h
      exact Or.inl ⟨h, hxy⟩
  · simp only [addReactionTx]
    by_cases hmem : (current.getD []).contains x = true
    · rw [if_pos hmem, List.filter_filter]
      simp
    · rw [if_neg hmem, List.filter_append]
      simp

/-- Witness for C10: member "a" toggles on a set containing only "b". -/
theorem C10_reaction_toggle_frame_witness :
    ("b" ∈ addReactionTx "a" (some ["b"])
        ↔ "b" ∈ (some ["b"] : Option (List String)).getD [])
      ∧ (addReactionTx "a" (some ["b"])).filter (fun memberId => memberId != "a")
        = ((some ["b"] : Option (List String)).getD []).filter
            (fun memberId => memberId != "a") :=
  C10_reaction_toggle_frame "a" "b" (some ["b"]) (by decide)

end Spec2Proof
